import Mathlib

/-!
Verification of the yuri TypeScript toolbox (shallow embedding).

The definitions below are translated from the repository's source:
  * `src/src/commands/refactorCQRS.ts`   (view-interface generation)
  * `src/src/commands/generateFactory.ts`
  * `src/unnamed/part_001`               (generateClassFromInterface)
  * `src/unnamed/part_002`               (utils/resolve.ts: findDeclNearby)
  * `src/unnamed/part_003`               (utils/props.ts)

JavaScript `Set` and `Map` are modelled as insertion-ordered lists
(duplicate-free for `Set`, key-unique for `Map`), matching JS iteration
order semantics.  JS string routines (`split`, regexes) are modelled at
the character-list level.  The Node `path` module (external to the
repository) is modelled by plain segment concatenation, normalizing a
leading "./" of a relative specifier the way `path.resolve` does.
-/

/-- Characters matched by the JS regex class `\w` = `[A-Za-z0-9_]`. -/
def isWordChar (c : Char) : Bool := c.isAlpha || c.isDigit || c == '_'

/-- Model of the JS `String.prototype.split` with a one-character
separator, on character lists.  `splitChar sep [] = [[]]` just as
`"".split(".") = [""]` in JS. -/
def splitChar (sep : Char) : List Char → List (List Char)
  | [] => [[]]
  | c :: cs =>
    if c = sep then [] :: splitChar sep cs
    else (splitChar sep cs).modifyHead (fun r => c :: r)

/-- JS `s.split(sep)` for a one-character separator. -/
def jsSplit (sep : Char) (s : String) : List String :=
  (splitChar sep s.toList).map (fun l => l.asString)

/-- Model of the regex `^(\w+)\.\!(\w+)$` from `splitFields`
(refactorCQRS.ts line 225): exclusion tokens such as `author.!privacy`. -/
def exclusionMatch (f : String) : Option (String × String) :=
  let cs := f.toList
  let p := cs.takeWhile isWordChar
  match cs.dropWhile isWordChar with
  | '.' :: '!' :: c =>
    if !p.isEmpty && !c.isEmpty && c.all isWordChar then
      some (p.asString, c.asString)
    else none
  | _ => none

/-- Model of the regex `^\?(\w+)$` from `splitFields`
(refactorCQRS.ts line 235): optional top-level tokens such as `?title`. -/
def optionalTopMatch (f : String) : Option String :=
  match f.toList with
  | '?' :: w => if !w.isEmpty && w.all isWordChar then some w.asString else none
  | _ => none

/-- Model of the regex `^(\w+)\.\?(\w+)$` from `splitFields`
(refactorCQRS.ts line 244): optional nested tokens such as `author.?id`. -/
def optionalNestedMatch (f : String) : Option (String × String) :=
  let cs := f.toList
  let p := cs.takeWhile isWordChar
  match cs.dropWhile isWordChar with
  | '.' :: '?' :: c =>
    if !p.isEmpty && !c.isEmpty && c.all isWordChar then
      some (p.asString, c.asString)
    else none
  | _ => none

/-- JS `Set.add`: append if not already present (insertion order kept). -/
def setAdd (s : List String) (x : String) : List String :=
  if x ∈ s then s else s ++ [x]

/-- JS idiom `if (!m.has(k)) m.set(k, new Set()); m.get(k)!.add(v)` on the
insertion-ordered multimaps used by `splitFields`. -/
def mmAdd (m : List (String × List String)) (k v : String) :
    List (String × List String) :=
  if m.any (fun e => e.1 = k) then
    m.map (fun e => if e.1 = k then (e.1, setAdd e.2 v) else e)
  else m ++ [(k, [v])]

/-- The `Split` record built by `splitFields` (refactorCQRS.ts lines
199-205); each JS `Set` is an insertion-ordered duplicate-free list and
each JS `Map` an insertion-ordered association list. -/
structure Split where
  top : List String
  nested : List (String × List String)
  exclusions : List (String × List String)
  optionalTop : List String
  optionalNested : List (String × List String)
deriving DecidableEq, Repr

/-- Classification of one token by the loop body of `splitFields`
(refactorCQRS.ts lines 223-259), with the four branch tests in source
order: exclusion, optional top, optional nested, then split on dots. -/
def classifyToken (acc : Split) (f : String) : Split :=
  match exclusionMatch f with
  | some pe =>
    { acc with top := setAdd acc.top pe.1,
               exclusions := mmAdd acc.exclusions pe.1 pe.2 }
  | none =>
  match optionalTopMatch f with
  | some nm =>
    { acc with top := setAdd acc.top nm,
               optionalTop := setAdd acc.optionalTop nm }
  | none =>
  match optionalNestedMatch f with
  | some pc =>
    { acc with nested := mmAdd acc.nested pc.1 pc.2,
               optionalNested := mmAdd acc.optionalNested pc.1 pc.2 }
  | none =>
  match jsSplit '.' f with
  | [x] => { acc with top := setAdd acc.top x }
  | x :: y :: _ => { acc with nested := mmAdd acc.nested x y }
  | [] => acc

/-- `splitFields` (refactorCQRS.ts lines 207-267): classify every token,
then apply the final precedence pass `for (parent of nested.keys()) if
(!exclusions.has(parent)) top.delete(parent)`. -/
def splitFields (fields : List String) : Split :=
  let r := fields.foldl classifyToken ⟨[], [], [], [], []⟩
  { r with
    top := r.top.filter (fun t =>
      !(r.nested.any (fun e => e.1 = t)) || r.exclusions.any (fun e => e.1 = t)) }

/-- `PropInfo` from `src/src/types.ts`. -/
structure PropInfo where
  name : String
  type : String
  isOptional : Bool
deriving DecidableEq, Repr

/-- The Pick branch of `generateClassFromInterface` (part_001 lines
87-97) and `generateFactoryFromType` (generateFactory.ts lines 103-112):
filter the base fields by the key set, abort with an error naming every
invalid key when one of the keys is not a base field name. -/
def resolvePickProps (baseProps : List PropInfo) (keyList : List String)
    (baseTypeName : String) : Except String (List PropInfo) :=
  let props := baseProps.filter (fun p => keyList.contains p.name)
  let invalid := keyList.filter (fun k => !(baseProps.any (fun p => p.name = k)))
  if !invalid.isEmpty then
    .error ("Invalid fields in Pick: " ++ String.intercalate ", " invalid ++
            " not found in " ++ baseTypeName)
  else .ok props

/-- JS `Map.prototype.set`: replace the value in place when the key is
present (keeping its original insertion position), append otherwise. -/
def jsMapSet (m : List (String × PropInfo)) (k : String) (v : PropInfo) :
    List (String × PropInfo) :=
  if m.any (fun e => e.1 = k) then
    m.map (fun e => if e.1 = k then (e.1, v) else e)
  else m ++ [(k, v)]

/-- The Omit branch of `generateClassFromInterface` (part_001 lines
98-109): drop omitted base fields, build a JS `Map` from the survivors,
overwrite/append every own-declared field, and read the values back in
map order. -/
def omitResolve (baseProps ownProps : List PropInfo) (keyList : List String) :
    List PropInfo :=
  let afterOmit := baseProps.filter (fun p => !keyList.contains p.name)
  let m := ownProps.foldl (fun m p => jsMapSet m p.name p)
    (afterOmit.foldl (fun m p => jsMapSet m p.name p) [])
  m.map (fun e => e.2)

/-- Spec-side restatement of claim C4's description of the Omit result:
base fields without the omitted keys, each surviving field replaced in
place by a same-named own-declared field when one exists, and the
remaining own-declared fields appended at the end. -/
def omitResolveSpec (baseProps ownProps : List PropInfo)
    (keyList : List String) : List PropInfo :=
  let survivors := baseProps.filter (fun p => !keyList.contains p.name)
  (survivors.map (fun p =>
    match ownProps.find? (fun o => o.name = p.name) with
    | some o => o
    | none => p)) ++
  ownProps.filter (fun o => !survivors.any (fun p => p.name = o.name))

/-- Result of a call into the external type checker: a type text, or a
thrown exception (the checker is duck-typed and may throw on malformed
input). -/
inductive CheckerRes (α : Type) where
  | ok (a : α)
  | thrown
deriving DecidableEq, Repr

/-- A `ts-morph` `PropertySignature` as consumed by `getPropTypeFast`
(part_003 lines 17-28): a name, an optional-marker flag, the literal
text of an explicit type annotation when present, and the
checker-computed type text, which may throw (`CheckerRes.thrown`). -/
structure PropertySig where
  name : String
  hasQuestion : Bool
  typeNodeText : Option String
  checkerType : CheckerRes String
deriving DecidableEq, Repr

/-- `getPropTypeFast` (part_003 lines 17-28): prefer the annotation's
literal text, fall back to the checker-computed text, and catch a
checker exception into the default `"any"`. -/
def getPropTypeFast (p : PropertySig) : String :=
  match p.typeNodeText with
  | some t => t
  | none =>
    match p.checkerType with
    | .ok t => t
    | .thrown => "any"

/-- A member of a type-literal alias: the source filters members with
`m.isKind(SyntaxKind.PropertySignature)`, so other member kinds are
kept opaque. -/
inductive MemberM where
  | propSig (p : PropertySig)
  | otherMember
deriving DecidableEq, Repr

/-- A checker `Symbol` as used by the third branch of `getPropsFromDecl`
(part_003 lines 101-126): `getDeclarations()?.[0]` when it is a
`PropertySignature`, and a `getTypeAtLocation` text that may throw. -/
structure SymbolM where
  name : String
  firstDeclSig : Option PropertySig
  typeAtLoc : CheckerRes String
deriving DecidableEq, Repr

/-- The three declaration shapes handled by `getPropsFromDecl`: an
interface, an alias to an inline type literal, and an alias whose
member symbols come from the checker (where `getType().getProperties()`
itself may throw: `Except.error` = the outer catch yielding `[]`). -/
inductive DeclM where
  | iface (props : List PropertySig)
  | aliasLiteral (members : List MemberM)
  | aliasOther (symsResult : CheckerRes (List SymbolM))
deriving DecidableEq, Repr

/-- `getPropsFromDecl` (part_003 lines 78-127). -/
def getPropsFromDecl (decl : DeclM) : List PropInfo :=
  match decl with
  | .iface props =>
    props.map (fun p => ⟨p.name, getPropTypeFast p, p.hasQuestion⟩)
  | .aliasLiteral members =>
    (members.filterMap (fun m =>
      match m with
      | .propSig p => some p
      | .otherMember => none)).map
      (fun p => ⟨p.name, getPropTypeFast p, p.hasQuestion⟩)
  | .aliasOther r =>
    match r with
    | .thrown => []
    | .ok syms =>
      syms.map (fun sym =>
        match sym.firstDeclSig with
        | some d => ⟨sym.name, getPropTypeFast d, d.hasQuestion⟩
        | none =>
          ⟨sym.name,
           (match sym.typeAtLoc with
            | .ok t => t
            | .thrown => "any"),
           false⟩)

/-- The word-level replacements of `normalizePrimitives` (part_003 lines
225-231): `String`, `Number`, `Boolean`, `Symbol`, `BigInt` lowered to
their primitive spellings (each regex is `\bWord\b`). -/
def primName (w : String) : String :=
  if w = "String" then "string"
  else if w = "Number" then "number"
  else if w = "Boolean" then "boolean"
  else if w = "Symbol" then "symbol"
  else if w = "BigInt" then "bigint"
  else w

/-- Split a character list into maximal runs of word / non-word
characters; a `\bWord\b` regex match is exactly a word run equal to
`Word`. -/
def splitRuns : List Char → List (List Char)
  | [] => []
  | c :: cs =>
    match splitRuns cs with
    | [] => [[c]]
    | r :: rs =>
      match r with
      | [] => [c] :: r :: rs
      | d :: _ =>
        if isWordChar c = isWordChar d then (c :: r) :: rs else [c] :: r :: rs

/-- One attempted match of the regex `import\("[^"]+"\)\.` at the head
of the character list; returns the remainder after the match. -/
def stripImportMatch : List Char → Option (List Char)
  | 'i' :: 'm' :: 'p' :: 'o' :: 'r' :: 't' :: '(' :: '"' :: rest =>
    let body := rest.takeWhile (fun ch => !(ch == '"'))
    if body.isEmpty then none
    else
      match rest.dropWhile (fun ch => !(ch == '"')) with
      | '"' :: ')' :: '.' :: rest2 => some rest2
      | _ => none
  | _ => none

/-- Left-to-right global replacement of `import\("[^"]+"\)\.` by the
empty string (fuel-indexed scan; fuel = input length suffices since
every step consumes at least one character). -/
def stripImportsAux : Nat → List Char → List Char
  | 0, cs => cs
  | _ + 1, [] => []
  | fuel + 1, c :: cs =>
    match stripImportMatch (c :: cs) with
    | some rest2 => stripImportsAux fuel rest2
    | none => c :: stripImportsAux fuel cs

/-- `normalizePrimitives` (part_003 lines 225-232): the five `\bWord\b`
primitive-name replacements followed by deletion of
`import("...")。`-style module-qualifier prefixes. -/
def normalizePrimitives (txt : String) : String :=
  let runs := splitRuns txt.toList
  let replaced := runs.map (fun r =>
    match r with
    | [] => r
    | d :: _ => if isWordChar d then (primName r.asString).toList else r)
  (stripImportsAux replaced.flatten.length replaced.flatten).asString

/-- `ValidationMode` from `src/src/types.ts` (`"strict" | "partial" |
"loose"`); the middle mode is spelt `partialMode` here. -/
inductive ValidationMode where
  | strict
  | partialMode
  | loose
deriving DecidableEq, Repr

/-- One property of the target interface as `generateViewInterfaces`
observes it through ts-morph: its name; the text produced by
`getTopPropTypeText` (annotation text, else checker text); whether
`getArrayElementTypeIfArray` reports its non-nullable type as an array;
the property names of its raw type (`parentSig.getType().getProperties()`,
used when validating exclusions); and the properties of its array-element
type with their non-nullable type texts (used for nested validation and
for composite emission). -/
structure TProp where
  name : String
  typeText : String
  isArray : Bool
  typePropNames : List String
  elemProps : List (String × String)
deriving DecidableEq, Repr

/-- `iface.getProperty(name)`. -/
def lookupProp (iface : List TProp) (n : String) : Option TProp :=
  iface.find? (fun p => p.name = n)

/-- `getTopPropTypeText` (refactorCQRS.ts lines 365-371). -/
def getTopPropTypeText (iface : List TProp) (n : String) : Option String :=
  (lookupProp iface n).map (fun p => p.typeText)

/-- `getChildPropTypeText` (refactorCQRS.ts lines 373-388): array-ness of
the parent plus the child's non-nullable type text, `none` when parent or
child is absent. -/
def getChildPropTypeText (iface : List TProp) (parent child : String) :
    Option (Bool × String) :=
  match lookupProp iface parent with
  | none => none
  | some p =>
    match p.elemProps.find? (fun e => e.1 = child) with
    | none => none
    | some e => some (p.isArray, e.2)

/-- JS `Map.get` on the insertion-ordered association lists of `Split`. -/
def mmLookup (m : List (String × List String)) (k : String) :
    Option (List String) :=
  (m.find? (fun e => e.1 = k)).map (fun e => e.2)

/-- The validation block of `generateViewInterfaces` (refactorCQRS.ts
lines 405-457): the `invalid` list in source order `invalidTop ++
invalidNestedParents ++ invalidNestedChildren ++ invalidExclusions`.
Excluded-child validity is only checked in strict and partial modes. -/
def computeInvalid (iface : List TProp) (mode : ValidationMode) (s : Split) :
    List String :=
  let names := iface.map (fun p => p.name)
  let invalidTop := s.top.filter (fun f => !names.contains f)
  let invalidNestedParents :=
    (s.nested.map (fun e => e.1)).filter (fun p => !names.contains p)
  let invalidNestedChildren := s.nested.flatMap (fun e =>
    if invalidNestedParents.contains e.1 then []
    else
      match lookupProp iface e.1 with
      | none => []
      | some p =>
        (e.2.filter (fun c =>
          !((p.elemProps.map (fun q => q.1)).contains c))).map
          (fun c => e.1 ++ "." ++ c))
  let invalidExclusions := s.exclusions.flatMap (fun e =>
    if !names.contains e.1 then e.2.map (fun f => e.1 ++ ".!" ++ f)
    else if mode = ValidationMode.strict ∨ mode = ValidationMode.partialMode then
      match lookupProp iface e.1 with
      | none => []
      | some p =>
        (e.2.filter (fun ef => !p.typePropNames.contains ef)).map
          (fun ef => e.1 ++ ".!" ++ ef)
    else [])
  invalidTop ++ invalidNestedParents ++ invalidNestedChildren ++
    invalidExclusions

/-- The partial/loose dropping pass (refactorCQRS.ts lines 472-509):
invalid top fields removed, and nested / optional / exclusion entries
with invalid parents deleted. -/
def filterSplit (iface : List TProp) (s : Split) : Split :=
  let names := iface.map (fun p => p.name)
  { top := s.top.filter (fun f => names.contains f),
    nested := s.nested.filter (fun e => names.contains e.1),
    exclusions := s.exclusions.filter (fun e => names.contains e.1),
    optionalTop := s.optionalTop.filter (fun f => names.contains f),
    optionalNested := s.optionalNested.filter (fun e => names.contains e.1) }

/-- The top-level-field emission loop (refactorCQRS.ts lines 527-563),
including the exclusion-composite branch. -/
def emitTopLines (iface : List TProp) (s : Split) : List String :=
  s.top.filterMap (fun name =>
    match getTopPropTypeText iface name with
    | none => none
    | some tt =>
      match mmLookup s.exclusions name with
      | some excl =>
        match lookupProp iface name with
        | none => none
        | some p =>
          let optChild := (mmLookup s.optionalNested name).getD []
          let childLines := p.elemProps.filterMap (fun e =>
            if excl.contains e.1 then none
            else some (e.1 ++ (if optChild.contains e.1 then "?" else "") ++
              ": " ++ normalizePrimitives e.2))
          if childLines.isEmpty then none
          else
            let objStr := "\x7b " ++ String.intercalate "; " childLines ++ " \x7d"
            some (" " ++ name ++
              (if s.optionalTop.contains name then "?" else "") ++ ": " ++
              (if p.isArray then "Array<" ++ objStr ++ ">" else objStr) ++ ";")
      | none =>
        some (" " ++ name ++
          (if s.optionalTop.contains name then "?" else "") ++ ": " ++
          normalizePrimitives tt ++ ";"))

/-- The nested-field emission loop (refactorCQRS.ts lines 566-587),
with the `isArrayParent` accumulator of the source. -/
def emitNestedLines (iface : List TProp) (s : Split) : List String :=
  s.nested.filterMap (fun pe =>
    let optChild := (mmLookup s.optionalNested pe.1).getD []
    let acc := pe.2.foldl (fun (acc : List String × Option Bool) child =>
      match getChildPropTypeText iface pe.1 child with
      | none => acc
      | some info =>
        let b := acc.2.getD info.1
        (acc.1 ++ [child ++ (if optChild.contains child then "?" else "") ++
           ": " ++ normalizePrimitives info.2],
         some (if b ≠ info.1 then false else b)))
      ([], none)
    if acc.1.isEmpty then none
    else
      let objStr := "\x7b " ++ String.intercalate "; " acc.1 ++ " \x7d"
      some (" " ++ pe.1 ++
        (if s.optionalTop.contains pe.1 then "?" else "") ++ ": " ++
        (if acc.2.getD false then "Array<" ++ objStr ++ ">" else objStr) ++ ";"))

/-- Emission of one view interface (refactorCQRS.ts lines 524-590): the
collected lines, or nothing when no line survives (`if (!lines.length)
continue`). -/
def emitView (iface : List TProp) (s : Split) (typeName : String) :
    Option String :=
  let lines := emitTopLines iface s ++ emitNestedLines iface s
  if lines.isEmpty then none
  else some ("export interface " ++ typeName ++ " \x7b\n" ++
    String.intercalate "\n" lines ++ "\n\x7d")

/-- `interfaceName.startsWith("_") ? interfaceName.slice(1) :
interfaceName` (refactorCQRS.ts lines 314-316). -/
def stripUnderscore (s : String) : String :=
  match s.toList with
  | '_' :: rest => rest.asString
  | _ => s

/-- `toTitle` (refactorCQRS.ts line 352):
`s.charAt(0).toUpperCase() + s.slice(1)`. -/
def toTitle (s : String) : String :=
  match s.toList with
  | [] => ""
  | c :: rest => (c.toUpper :: rest).asString

/-- The emitted interface name (refactorCQRS.ts lines 518-522): the
de-underscored target name as prefix, omitted when it equals the
title-cased view key, then the title-cased view key, then the configured
interface suffix. -/
def viewTypeName (noUnderscoreName viewName iSuffix : String) : String :=
  (if noUnderscoreName = toTitle viewName then "" else noUnderscoreName) ++
    toTitle viewName ++ iSuffix

/-- Processing of one `_viewSchemas` entry (refactorCQRS.ts lines
393-592): split, validate, apply the validation-mode policy, emit.
Returns the emitted interface text (`none` = the view was skipped or
emitted no line) and the warnings it pushed. -/
def processView (iface : List TProp) (mode : ValidationMode)
    (noUnderscoreName iSuffix viewName : String) (fields : List String) :
    Option String × List String :=
  if fields.isEmpty then (none, [])
  else
    let s := splitFields fields
    let invalid := computeInvalid iface mode s
    let typeName := viewTypeName noUnderscoreName viewName iSuffix
    match mode with
    | .strict =>
      if !invalid.isEmpty then
        (none, ["Skipped '" ++ viewName ++ "': invalid fields: " ++
          String.intercalate ", " invalid])
      else (emitView iface s typeName, [])
    | .partialMode =>
      let s2 := filterSplit iface s
      if s2.top.isEmpty && s2.nested.isEmpty && s2.exclusions.isEmpty then
        (none, ["Skipped '" ++ viewName ++ "': no valid fields."])
      else
        (emitView iface s2 typeName,
         if !invalid.isEmpty then
           ["Partially generated '" ++ viewName ++
             "': ignored invalid fields: " ++ String.intercalate ", " invalid]
         else [])
    | .loose =>
      let s2 := filterSplit iface s
      (emitView iface s2 typeName,
       if !invalid.isEmpty then
         ["Loosely generated '" ++ viewName ++
           "': interface does not contain: " ++ String.intercalate ", " invalid]
       else [])

/-- Accumulated outcome of the `_viewSchemas` loop: emitted interface
texts in order, warnings in order, and the `generated` counter. -/
structure GenResult where
  out : List String
  warnings : List String
  generated : Nat
deriving DecidableEq, Repr

/-- The whole `_viewSchemas` loop of `generateViewInterfaces`
(refactorCQRS.ts lines 390-592), over the already-extracted (view name,
string-field list) pairs. -/
def generateViews (interfaceName : String) (iface : List TProp)
    (schemas : List (String × List String)) (mode : ValidationMode)
    (iSuffix : String) : GenResult :=
  match schemas with
  | [] => ⟨[], [], 0⟩
  | (v, fs) :: rest =>
    let r := processView iface mode (stripUnderscore interfaceName) iSuffix v fs
    let g := generateViews interfaceName iface rest mode iSuffix
    ⟨r.1.toList ++ g.out, r.2 ++ g.warnings,
     (if r.1.isSome then 1 else 0) + g.generated⟩

/-- The `_Post` interface of `example/post.ts`, as seen through the
`TProp` abstraction: eight properties in declaration order; `author` is
an object type with properties `id` and `name`. -/
def postIface : List TProp :=
  [⟨"id", "string", false, [], []⟩,
   ⟨"user_id", "string", false, [], []⟩,
   ⟨"text", "string", false, [], []⟩,
   ⟨"title", "string", false, [], []⟩,
   ⟨"images", "string[]", true, [], []⟩,
   ⟨"upvotes_count", "number", false, [], []⟩,
   ⟨"comments_count", "number", false, [], []⟩,
   ⟨"author", "\x7b id: string; name: string \x7d", false, ["id", "name"],
    [("id", "string"), ("name", "string")]⟩]

/-- Declaration kind returned by the nearby resolver: interface or type
alias (`getInterface` is always consulted before `getTypeAlias`). -/
inductive DKind where
  | ifaceK
  | aliasK
deriving DecidableEq, Repr

/-- A parsed source file as the resolver sees it: its import module
specifiers in source order and its declared interface / type-alias
names. -/
structure SourceFileM where
  imports : List String
  interfaces : List String
  typeAliases : List String
deriving DecidableEq, Repr

/-- Where `findDeclNearby` found the declaration: in the current file,
or in a loaded file at a path. -/
inductive FoundLoc where
  | current (k : DKind)
  | inFile (p : String) (k : DKind)
deriving DecidableEq, Repr

/-- `sf.getInterface(n)` then `sf.getTypeAlias(n)` — the lookup order
used throughout `utils/resolve.ts`. -/
def lookupDecl (sf : SourceFileM) (n : String) : Option DKind :=
  if sf.interfaces.contains n then some DKind.ifaceK
  else if sf.typeAliases.contains n then some DKind.aliasK
  else none

/-- The file system as an association list path ↦ parsed file; loading a
file (`ensureFileLoaded`) is a lookup. -/
def lookupFile (fs : List (String × SourceFileM)) (p : String) :
    Option SourceFileM :=
  (fs.find? (fun e => e.1 = p)).map (fun e => e.2)

/-- `fileExists` (part_002 lines 11-18). -/
def fileExistsM (fs : List (String × SourceFileM)) (p : String) : Bool :=
  (lookupFile fs p).isSome

/-- Model of Node `path.dirname`. -/
def dirname (p : String) : String :=
  match p.toList.reverse.dropWhile (fun c => !(c == '/')) with
  | [] => "."
  | _ :: rest =>
    match rest.reverse with
    | [] => "/"
    | l => l.asString

/-- Model of Node `path.resolve(base, rel)` for the relative specifiers
this code passes: plain joining, normalizing one leading `./`. -/
def joinPath (base rel : String) : String :=
  let r := match rel.toList with
    | '.' :: '/' :: rest => rest.asString
    | _ => rel
  base ++ "/" ++ r

/-- The candidate list of `resolveModuleToFsPath` (part_002 lines
33-40) in source order: `.ts`, `.tsx`, `.d.ts`, `/index.ts`,
`/index.tsx`. -/
def candidatePaths (base spec : String) : List String :=
  [joinPath base (spec ++ ".ts"),
   joinPath base (spec ++ ".tsx"),
   joinPath base (spec ++ ".d.ts"),
   joinPath base spec ++ "/index.ts",
   joinPath base spec ++ "/index.tsx"]

/-- The `for (const c of candidates) if (await fileExists(c)) return c`
loop of `resolveModuleToFsPath`. -/
def firstExisting (fs : List (String × SourceFileM)) :
    List String → Option String
  | [] => none
  | c :: rest => if fileExistsM fs c then some c else firstExisting fs rest

/-- `resolveModuleToFsPath` (part_002 lines 29-45). -/
def resolveModuleToFsPath (fs : List (String × SourceFileM))
    (fromFsPath moduleSpecifier : String) : Option String :=
  firstExisting fs (candidatePaths (dirname fromFsPath) moduleSpecifier)

/-- `spec.startsWith(".")`. -/
def startsWithDot (s : String) : Bool :=
  match s.toList with
  | '.' :: _ => true
  | _ => false

/-- Tier 2 of `findDeclNearby` (part_002 lines 59-69): walk the import
specifiers in source order, skip non-relative ones, resolve each to a
file and look the name up there, continuing on any miss. -/
def importStep (fs : List (String × SourceFileM))
    (fromFsPath simple : String) : List String → Option FoundLoc
  | [] => none
  | spec :: rest =>
    if startsWithDot spec then
      match resolveModuleToFsPath fs fromFsPath spec with
      | none => importStep fs fromFsPath simple rest
      | some p =>
        match lookupFile fs p with
        | none => importStep fs fromFsPath simple rest
        | some sf =>
          match lookupDecl sf simple with
          | some k => some (FoundLoc.inFile p k)
          | none => importStep fs fromFsPath simple rest
    else importStep fs fromFsPath simple rest

/-- Tier 3 of `findDeclNearby` (part_002 lines 71-81): same-directory
guesses `<name>.ts`, `<name>.tsx`, `<name>.d.ts`. -/
def sameDirStep (fs : List (String × SourceFileM)) (dir simple : String) :
    List String → Option FoundLoc
  | [] => none
  | ext :: rest =>
    let guess := joinPath dir (simple ++ ext)
    match lookupFile fs guess with
    | none => sameDirStep fs dir simple rest
    | some sf =>
      match lookupDecl sf simple with
      | some k => some (FoundLoc.inFile guess k)
      | none => sameDirStep fs dir simple rest

/-- `findDeclNearby` (part_002 lines 47-83): de-qualify the name to its
last dotted segment, then current file, then relative imports, then
same-directory guesses; `none` when all three tiers miss. -/
def findDeclNearby (fs : List (String × SourceFileM))
    (name fromFsPath : String) (currentSf : SourceFileM) : Option FoundLoc :=
  let simple := (jsSplit '.' name).getLastD name
  match lookupDecl currentSf simple with
  | some k => some (FoundLoc.current k)
  | none =>
    match importStep fs fromFsPath simple currentSf.imports with
    | some r => some r
    | none => sameDirStep fs (dirname fromFsPath) simple [".ts", ".tsx", ".d.ts"]

/-- Spec-side test that one import specifier yields no hit for `simple`:
non-relative, or unresolvable, or resolving to a file without the
declaration. -/
def importTierMiss (fs : List (String × SourceFileM))
    (fromFsPath simple spec : String) : Bool :=
  if startsWithDot spec then
    match resolveModuleToFsPath fs fromFsPath spec with
    | none => true
    | some p =>
      match lookupFile fs p with
      | none => true
      | some sf => (lookupDecl sf simple).isNone
  else true

/-- Spec-side test that one same-directory guess yields no hit. -/
def sameDirTierMiss (fs : List (String × SourceFileM))
    (dir simple ext : String) : Bool :=
  match lookupFile fs (joinPath dir (simple ++ ext)) with
  | none => true
  | some sf => (lookupDecl sf simple).isNone

/-! ## Helper lemmas -/

theorem mem_setAdd_self (s : List String) (x : String) : x ∈ setAdd s x := by
  unfold setAdd
  split
  · assumption
  · exact List.mem_append_right _ (List.mem_singleton.mpr rfl)

theorem mem_setAdd_of_mem {s : List String} {y : String} (x : String)
    (h : y ∈ s) : y ∈ setAdd s x := by
  unfold setAdd
  split
  · exact h
  · exact List.mem_append_left _ h

theorem mmAdd_any_imp {m : List (String × List String)} {k v q : String}
    (h : ((mmAdd m k v).any (fun e => e.1 = q)) = true) :
    (m.any (fun e => e.1 = q)) = true ∨ q = k := by
  unfold mmAdd at h
  split at h
  · left
    rw [List.any_map] at h
    refine Eq.trans ?_ h
    congr 1
    funext e
    by_cases he : e.1 = k <;> simp [he]
  · rw [List.any_append] at h
    rcases (Bool.or_eq_true _ _).mp h with h1 | h2
    · exact Or.inl h1
    · right
      simp only [List.any_cons, List.any_nil, Bool.or_false,
        decide_eq_true_eq] at h2
      exact h2.symm

theorem classify_pres (acc : Split) (f : String)
    (h : ∀ q, (acc.exclusions.any (fun e => e.1 = q)) = true → q ∈ acc.top) :
    ∀ q, ((classifyToken acc f).exclusions.any (fun e => e.1 = q)) = true →
      q ∈ (classifyToken acc f).top := by
  intro q
  unfold classifyToken
  cases hex : exclusionMatch f with
  | some pe =>
    intro hq
    simp only at hq ⊢
    rcases mmAdd_any_imp hq with hm | rfl
    · exact mem_setAdd_of_mem _ (h q hm)
    · exact mem_setAdd_self _ _
  | none =>
    cases hot : optionalTopMatch f with
    | some nm =>
      intro hq
      exact mem_setAdd_of_mem _ (h q hq)
    | none =>
      cases hon : optionalNestedMatch f with
      | some pc => exact h q
      | none =>
        cases hsp : jsSplit '.' f with
        | nil => exact h q
        | cons x t =>
          cases t with
          | nil =>
            intro hq
            exact mem_setAdd_of_mem _ (h q hq)
          | cons y r => exact h q

theorem foldl_exclusions_top (fields : List String) :
    ∀ acc : Split,
      (∀ q, (acc.exclusions.any (fun e => e.1 = q)) = true → q ∈ acc.top) →
      ∀ q, ((fields.foldl classifyToken acc).exclusions.any
          (fun e => e.1 = q)) = true →
        q ∈ (fields.foldl classifyToken acc).top := by
  induction fields with
  | nil => intro acc h q; exact h q
  | cons f rest ih =>
    intro acc h q
    exact ih (classifyToken acc f) (classify_pres acc f h) q

/-- C2: after all view-schema tokens are classified by `splitFields`, a
parent present in the nested-field map with no exclusion entry is absent
from the final top-field set (nested wins), while a parent with an
exclusion entry is always a member of the final top-field set. -/
theorem c2_nested_beats_top :
    ∀ (fields : List String) (p : String),
      (((splitFields fields).nested.any (fun e => e.1 = p)) = true →
        ((splitFields fields).exclusions.any (fun e => e.1 = p)) = false →
        p ∉ (splitFields fields).top) ∧
      (((splitFields fields).exclusions.any (fun e => e.1 = p)) = true →
        p ∈ (splitFields fields).top) := by
  intro fields p
  unfold splitFields
  simp only
  constructor
  · intro hn hx hmem
    rcases List.mem_filter.mp hmem with ⟨_, hpred⟩
    rw [hn, hx] at hpred
    simp at hpred
  · intro hx
    have h1 : p ∈ (fields.foldl classifyToken ⟨[], [], [], [], []⟩).top := by
      refine foldl_exclusions_top fields _ ?_ p hx
      intro q hq
      simp at hq
    refine List.mem_filter.mpr ⟨h1, ?_⟩
    rw [hx]
    simp

/-- Witness for C2 at the token list `["author.!id", "a.b"]`: the nested
parent `a` is dropped from the top set, the exclusion parent `author`
stays. -/
theorem c2_witness :
    (((splitFields ["author.!id", "a.b"]).nested.any
        (fun e => e.1 = "a")) = true ∧
      ((splitFields ["author.!id", "a.b"]).exclusions.any
        (fun e => e.1 = "a")) = false ∧
      "a" ∉ (splitFields ["author.!id", "a.b"]).top) ∧
    (((splitFields ["author.!id", "a.b"]).exclusions.any
        (fun e => e.1 = "author")) = true ∧
      "author" ∈ (splitFields ["author.!id", "a.b"]).top) :=
  ⟨⟨by decide, by decide,
    (c2_nested_beats_top ["author.!id", "a.b"] "a").1 (by decide) (by decide)⟩,
   ⟨by decide, (c2_nested_beats_top ["author.!id", "a.b"] "author").2
      (by decide)⟩⟩

theorem count_dot_of_all_word {l : List Char} (h : (l.all isWordChar) = true) :
    l.count '.' = 0 := by
  refine List.count_eq_zero.mpr ?_
  intro hmem
  have hw := List.all_eq_true.mp h '.' hmem
  simp [isWordChar] at hw

theorem count_dot_takeWhile (cs : List Char) :
    (cs.takeWhile isWordChar).count '.' = 0 := by
  refine List.count_eq_zero.mpr ?_
  intro hmem
  have hw := List.mem_takeWhile_imp hmem
  simp [isWordChar] at hw

theorem exclusionMatch_dots {f : String} {pr : String × String}
    (h : exclusionMatch f = some pr) : f.toList.count '.' = 1 := by
  unfold exclusionMatch at h
  simp only at h
  split at h
  · next c heq =>
    split at h
    · next hcond =>
      rcases Bool.and_eq_true_iff.mp hcond with ⟨_, hcall⟩
      have hsplit := List.takeWhile_append_dropWhile (p := isWordChar)
        (l := f.toList)
      rw [heq] at hsplit
      rw [← hsplit, List.count_append, count_dot_takeWhile,
        List.count_cons_self, List.count_cons_of_ne (by decide),
        count_dot_of_all_word hcall]
    · exact absurd h (by simp)
  · exact absurd h (by simp)

theorem optionalNestedMatch_dots {f : String} {pr : String × String}
    (h : optionalNestedMatch f = some pr) : f.toList.count '.' = 1 := by
  unfold optionalNestedMatch at h
  simp only at h
  split at h
  · next c heq =>
    split at h
    · next hcond =>
      rcases Bool.and_eq_true_iff.mp hcond with ⟨_, hcall⟩
      have hsplit := List.takeWhile_append_dropWhile (p := isWordChar)
        (l := f.toList)
      rw [heq] at hsplit
      rw [← hsplit, List.count_append, count_dot_takeWhile,
        List.count_cons_self, List.count_cons_of_ne (by decide),
        count_dot_of_all_word hcall]
    · exact absurd h (by simp)
  · exact absurd h (by simp)

theorem optionalTopMatch_dots {f : String} {w : String}
    (h : optionalTopMatch f = some w) : f.toList.count '.' = 0 := by
  unfold optionalTopMatch at h
  split at h
  · next w' heq =>
    split at h
    · next hcond =>
      rcases Bool.and_eq_true_iff.mp hcond with ⟨_, hcall⟩
      rw [heq, List.count_cons_of_ne (by decide), count_dot_of_all_word hcall]
    · exact absurd h (by simp)
  · exact absurd h (by simp)

theorem splitChar_ne_nil (sep : Char) (cs : List Char) :
    splitChar sep cs ≠ [] := by
  induction cs with
  | nil => simp [splitChar]
  | cons c cs ih =>
    unfold splitChar
    split
    · simp
    · cases h : splitChar sep cs with
      | nil => exact absurd h ih
      | cons r rs => simp [h]

theorem length_splitChar (sep : Char) (cs : List Char) :
    (splitChar sep cs).length = cs.count sep + 1 := by
  induction cs with
  | nil => simp [splitChar]
  | cons c cs ih =>
    unfold splitChar
    split
    · next hc =>
      subst hc
      simp [List.count_cons_self, ih]
    · next hc =>
      cases h : splitChar sep cs with
      | nil => exact absurd h (splitChar_ne_nil sep cs)
      | cons r rs =>
        rw [h] at ih
        simp only [List.modifyHead_cons, List.length_cons] at ih ⊢
        rw [List.count_cons_of_ne (fun he => hc he.symm) cs]
        exact ih

theorem classify_empty_top_or_nested (g : String) :
    ((classifyToken ⟨[], [], [], [], []⟩ g).top ≠ [] ∧
      (classifyToken ⟨[], [], [], [], []⟩ g).nested = []) ∨
    (classifyToken ⟨[], [], [], [], []⟩ g).nested ≠ [] := by
  unfold classifyToken
  cases hex : exclusionMatch g with
  | some pe => left; constructor <;> simp [setAdd]
  | none =>
    cases hot : optionalTopMatch g with
    | some nm => left; constructor <;> simp [setAdd]
    | none =>
      cases hon : optionalNestedMatch g with
      | some pc => right; simp [mmAdd]
      | none =>
        cases hsp : jsSplit '.' g with
        | nil =>
          exact absurd (List.map_eq_nil_iff.mp hsp) (splitChar_ne_nil '.' g.toList)
        | cons x t =>
          cases t with
          | nil => left; constructor <;> simp [setAdd]
          | cons y r => right; simp [mmAdd]

/-- C9: a view-schema token with two or more dots matches none of the
exclusion / optional regexes and is classified by `splitFields` as a
nested field whose parent is the first dot-separated segment and whose
child is the second, every later segment being ignored; moreover no
token is ever rejected: classifying any single token always lands in
the top-field set or the nested-field map. -/
theorem c9_multidot_nested :
    (∀ f : String, 2 ≤ f.toList.count '.' →
      splitFields [f] =
        ⟨[], [((jsSplit '.' f).headD "", [((jsSplit '.' f).drop 1).headD ""])],
         [], [], []⟩) ∧
    (∀ g : String,
      (splitFields [g]).top ≠ [] ∨ (splitFields [g]).nested ≠ []) := by
  constructor
  · intro f hf
    have hex : exclusionMatch f = none := by
      cases h : exclusionMatch f with
      | none => rfl
      | some pr => rw [exclusionMatch_dots h] at hf; omega
    have hot : optionalTopMatch f = none := by
      cases h : optionalTopMatch f with
      | none => rfl
      | some w => rw [optionalTopMatch_dots h] at hf; omega
    have hon : optionalNestedMatch f = none := by
      cases h : optionalNestedMatch f with
      | none => rfl
      | some pr => rw [optionalNestedMatch_dots h] at hf; omega
    have hlen : (splitChar '.' f.toList).length = f.toList.count '.' + 1 :=
      length_splitChar '.' f.toList
    rcases hsc : splitChar '.' f.toList with _ | ⟨x, t⟩
    · rw [hsc] at hlen
      exact absurd hlen (by simp)
    · rcases t with _ | ⟨y, r⟩
      · rw [hsc] at hlen
        simp only [List.length_cons, List.length_nil] at hlen
        omega
      · have hjs : jsSplit '.' f = x.asString :: y.asString ::
            r.map (fun l => l.asString) := by
          unfold jsSplit; rw [hsc]; rfl
        unfold splitFields
        simp only [List.foldl]
        unfold classifyToken
        rw [hex, hot, hon, hjs]
        simp [mmAdd, setAdd]
  · intro g
    unfold splitFields
    simp only [List.foldl]
    rcases classify_empty_top_or_nested g with ⟨h1, h2⟩ | h1
    · left
      rw [List.filter_eq_self.mpr]
      · exact h1
      · intro a _
        rw [h2]
        simp
    · right
      exact h1

/-- Witness for C9 at the token `"a.b.c"`. -/
theorem c9_witness :
    (2 ≤ ("a.b.c").toList.count '.' ∧
      splitFields ["a.b.c"] = ⟨[], [("a", ["b"])], [], [], []⟩) ∧
    ((splitFields ["x"]).top ≠ [] ∨ (splitFields ["x"]).nested ≠ []) :=
  ⟨⟨by decide, (c9_multidot_nested.1 "a.b.c" (by decide)).trans (by decide)⟩,
   c9_multidot_nested.2 "x"⟩

/-- C3: a Pick heritage selector with a key that names no base field
makes generation abort with an error listing every invalid key; when all
keys are valid the result is exactly the base fields whose names are in
the key set, kept in base declaration order. -/
theorem c3_pick_validation :
    ∀ (baseProps : List PropInfo) (keyList : List String)
      (baseTypeName : String),
      ((∃ k ∈ keyList, ∀ p ∈ baseProps, p.name ≠ k) →
        resolvePickProps baseProps keyList baseTypeName =
          .error ("Invalid fields in Pick: " ++
            String.intercalate ", "
              (keyList.filter (fun k => !(baseProps.any (fun p => p.name = k))))
            ++ " not found in " ++ baseTypeName)) ∧
      ((∀ k ∈ keyList, ∃ p ∈ baseProps, p.name = k) →
        resolvePickProps baseProps keyList baseTypeName =
          .ok (baseProps.filter (fun p => keyList.contains p.name)) ∧
        (baseProps.filter (fun p => keyList.contains p.name)).Sublist
          baseProps ∧
        ∀ p, p ∈ baseProps.filter (fun p => keyList.contains p.name) ↔
          p ∈ baseProps ∧ p.name ∈ keyList) := by
  intro B K N
  constructor
  · rintro ⟨k, hk, hnot⟩
    have hkmem : k ∈ K.filter (fun k => !(B.any (fun p => p.name = k))) := by
      refine List.mem_filter.mpr ⟨hk, ?_⟩
      rw [Bool.not_eq_true']
      rw [Bool.eq_false_iff]
      intro hany
      rcases List.any_eq_true.mp hany with ⟨p, hp, he⟩
      exact hnot p hp (by simpa using he)
    have hne : K.filter (fun k => !(B.any (fun p => p.name = k))) ≠ [] :=
      List.ne_nil_of_mem hkmem
    unfold resolvePickProps
    simp only
    rw [if_pos]
    rw [Bool.not_eq_true']
    rw [Bool.eq_false_iff]
    intro hempty
    exact hne (List.isEmpty_iff.mp hempty)
  · intro hall
    have hinv : K.filter (fun k => !(B.any (fun p => p.name = k))) = [] := by
      rw [List.filter_eq_nil_iff]
      intro k hk
      obtain ⟨p, hp, he⟩ := hall k hk
      simp only [Bool.not_eq_true', Bool.not_eq_false]
      exact List.any_eq_true.mpr ⟨p, hp, by simpa using he⟩
    refine ⟨?_, List.filter_sublist B, ?_⟩
    · unfold resolvePickProps
      simp only
      rw [hinv]
      rfl
    · intro p
      rw [List.mem_filter]
      constructor
      · rintro ⟨h1, h2⟩
        exact ⟨h1, by simpa [List.contains_iff_exists_mem_beq] using h2⟩
      · rintro ⟨h1, h2⟩
        refine ⟨h1, ?_⟩
        simp only [List.contains_iff_exists_mem_beq]
        exact ⟨p.name, h2, by simp⟩

/-- Witness for C3: one aborting instance with an invalid key and one
valid instance picking a single base field. -/
theorem c3_witness :
    resolvePickProps [⟨"a", "string", false⟩, ⟨"b", "number", false⟩]
        ["a", "x"] "Base" =
      .error "Invalid fields in Pick: x not found in Base" ∧
    resolvePickProps [⟨"a", "string", false⟩, ⟨"b", "number", false⟩]
        ["b"] "Base" =
      .ok [⟨"b", "number", false⟩] := by
  constructor
  · have h := (c3_pick_validation
      [⟨"a", "string", false⟩, ⟨"b", "number", false⟩] ["a", "x"] "Base").1
      ⟨"x", by decide, by decide⟩
    rw [h]
    rfl
  · have h := ((c3_pick_validation
      [⟨"a", "string", false⟩, ⟨"b", "number", false⟩] ["b"] "Base").2
      (by decide)).1
    rw [h]
    rfl

theorem getD_map_of_lt {α β : Type} (f : α → β) (l : List α) (i : Nat)
    (h : i < l.length) (d : β) (d' : α) :
    (l.map f).getD i d = f (l.getD i d') := by
  rw [List.getD_eq_getElem?_getD, List.getD_eq_getElem?_getD,
    List.getElem?_map, List.getElem?_eq_getElem h]
  simp

/-- C8: extracting the fields of a direct record declaration yields one
descriptor per declared field in declaration order, with `isOptional`
equal to the optional-marker flag, the explicit annotation text
preferred, the checker text used only without an annotation, and a
checker exception downgraded to `"any"`; an alias to an inline literal
of the same members extracts identically, and a checker-only symbol
whose type resolution throws also falls back to `"any"`. -/
theorem c8_extract_order :
    ∀ (props : List PropertySig) (i : Nat), i < props.length →
      ((getPropsFromDecl (.iface props)).length = props.length ∧
        getPropsFromDecl (.aliasLiteral (props.map MemberM.propSig)) =
          getPropsFromDecl (.iface props)) ∧
      (((getPropsFromDecl (.iface props)).getD i ⟨"", "", false⟩).name =
          (props.getD i ⟨"", false, none, .thrown⟩).name ∧
        ((getPropsFromDecl (.iface props)).getD i ⟨"", "", false⟩).isOptional =
          (props.getD i ⟨"", false, none, .thrown⟩).hasQuestion) ∧
      (∀ t, (props.getD i ⟨"", false, none, .thrown⟩).typeNodeText = some t →
        ((getPropsFromDecl (.iface props)).getD i ⟨"", "", false⟩).type = t) ∧
      ((props.getD i ⟨"", false, none, .thrown⟩).typeNodeText = none →
        ∀ t, (props.getD i ⟨"", false, none, .thrown⟩).checkerType = .ok t →
          ((getPropsFromDecl (.iface props)).getD i ⟨"", "", false⟩).type = t) ∧
      ((props.getD i ⟨"", false, none, .thrown⟩).typeNodeText = none →
        (props.getD i ⟨"", false, none, .thrown⟩).checkerType = .thrown →
        ((getPropsFromDecl (.iface props)).getD i ⟨"", "", false⟩).type =
          "any") ∧
      (∀ sym : SymbolM, sym.firstDeclSig = none → sym.typeAtLoc = .thrown →
        getPropsFromDecl (.aliasOther (.ok [sym])) =
          [⟨sym.name, "any", false⟩]) := by
  intro props i hi
  have hshow : getPropsFromDecl (.iface props) = props.map
      (fun p => (⟨p.name, getPropTypeFast p, p.hasQuestion⟩ : PropInfo)) := rfl
  have hmap : ∀ d d', ((props.map
      (fun p => (⟨p.name, getPropTypeFast p, p.hasQuestion⟩ : PropInfo))).getD
        i d) = ⟨(props.getD i d').name, getPropTypeFast (props.getD i d'),
          (props.getD i d').hasQuestion⟩ :=
    fun d d' => getD_map_of_lt _ props i hi d d'
  have hfm : (props.map MemberM.propSig).filterMap (fun m =>
      match m with
      | MemberM.propSig p => some p
      | MemberM.otherMember => none) = props := by
    clear hshow hmap hi
    induction props with
    | nil => rfl
    | cons p ps ih => simp [ih]
  refine ⟨⟨by simp [getPropsFromDecl], ?_⟩, ⟨?_, ?_⟩, ?_, ?_, ?_, ?_⟩
  · simp only [getPropsFromDecl]
    rw [hfm]
  · rw [hshow, hmap _ ⟨"", false, none, .thrown⟩]
  · rw [hshow, hmap _ ⟨"", false, none, .thrown⟩]
  · intro t ht
    rw [hshow, hmap _ ⟨"", false, none, .thrown⟩]
    simp only [getPropTypeFast]
    rw [ht]
  · intro hn t ht
    rw [hshow, hmap _ ⟨"", false, none, .thrown⟩]
    simp only [getPropTypeFast]
    rw [hn, ht]
  · intro hn ht
    rw [hshow, hmap _ ⟨"", false, none, .thrown⟩]
    simp only [getPropTypeFast]
    rw [hn, ht]
  · intro sym h1 h2
    simp [getPropsFromDecl, h1, h2]

/-- Witness for C8 on a two-field interface whose first field carries an
annotation and whose second has a throwing checker and no annotation. -/
theorem c8_witness :
    0 < ([⟨"a", true, some "string", .ok "X"⟩,
          ⟨"b", false, none, .thrown⟩] : List PropertySig).length ∧
    ((getPropsFromDecl (.iface [⟨"a", true, some "string", .ok "X"⟩,
        ⟨"b", false, none, .thrown⟩])).getD 0 ⟨"", "", false⟩).type =
      "string" :=
  ⟨by decide,
   (c8_extract_order [⟨"a", true, some "string", .ok "X"⟩,
      ⟨"b", false, none, .thrown⟩] 0 (by decide)).2.2.1 "string" rfl⟩

theorem contains_name_eq_any (l : List PropInfo) (s : String) :
    ((l.map (fun p => p.name)).contains s) = l.any (fun p => p.name = s) := by
  induction l with
  | nil => rfl
  | cons p t ih =>
    simp only [List.map_cons, List.contains_cons, List.any_cons, ih]
    congr 1
    by_cases h : p.name = s
    · simp [h]
    · simp only [h, decide_False]
      rw [Bool.eq_false_iff]
      intro hbeq
      have hsp : s = p.name := by simpa using hbeq
      exact h hsp.symm

theorem any_key_iff (m : List (String × PropInfo)) (q : String) :
    ((m.any (fun e => e.1 = q)) = true) ↔ q ∈ m.map Prod.fst := by
  simp only [List.any_eq_true, List.mem_map, decide_eq_true_eq]

theorem jsMapSet_append {m : List (String × PropInfo)} {k : String}
    {v : PropInfo} (h : k ∉ m.map Prod.fst) : jsMapSet m k v = m ++ [(k, v)] := by
  unfold jsMapSet
  rw [if_neg]
  intro hany
  exact h ((any_key_iff m k).mp hany)

theorem jsMapSet_replace {m : List (String × PropInfo)} {k : String}
    {v : PropInfo} (h : k ∈ m.map Prod.fst) :
    jsMapSet m k v = m.map (fun e => if e.1 = k then (e.1, v) else e) := by
  unfold jsMapSet
  rw [if_pos ((any_key_iff m k).mpr h)]

theorem keys_replace (m : List (String × PropInfo)) (k : String)
    (v : PropInfo) :
    (m.map (fun e => if e.1 = k then (e.1, v) else e)).map Prod.fst =
      m.map Prod.fst := by
  rw [List.map_map]
  apply List.map_congr_left
  intro e _
  by_cases h : e.1 = k <;> simp [h]

theorem foldl_jsMapSet_fresh :
    ∀ (ps : List PropInfo) (m : List (String × PropInfo)),
      (ps.map (fun p => p.name)).Nodup →
      (∀ p ∈ ps, p.name ∉ m.map Prod.fst) →
      ps.foldl (fun m p => jsMapSet m p.name p) m =
        m ++ ps.map (fun p => (p.name, p)) := by
  intro ps
  induction ps with
  | nil => intro m _ _; simp
  | cons p t ih =>
    intro m hnd hfresh
    have hnd' : (∀ x ∈ t, ¬x.name = p.name) ∧
        ((t.map (fun p => p.name)).Nodup) := by simpa using hnd
    simp only [List.foldl_cons]
    rw [jsMapSet_append (hfresh p (List.mem_cons_self p t))]
    have hfr : ∀ q ∈ t, q.name ∉ (m ++ [(p.name, p)]).map Prod.fst := by
      intro q hq
      rw [List.map_append]
      simp only [List.mem_append, List.map_cons, List.map_nil,
        List.mem_singleton, not_or]
      exact ⟨hfresh q (List.mem_cons_of_mem p hq), hnd'.1 q hq⟩
    rw [ih (m ++ [(p.name, p)]) hnd'.2 hfr]
    simp

theorem foldl_jsMapSet_own :
    ∀ (O : List PropInfo) (m : List (String × PropInfo)),
      (O.map (fun p => p.name)).Nodup →
      O.foldl (fun m p => jsMapSet m p.name p) m =
        m.map (fun e =>
          match O.find? (fun o => o.name = e.1) with
          | some o => (e.1, o)
          | none => e) ++
        (O.filter (fun o => !((m.map Prod.fst).contains o.name))).map
          (fun o => (o.name, o)) := by
  intro O
  induction O with
  | nil =>
    intro m _
    simp
  | cons o t ih =>
    intro m hnd
    have hnd' : (∀ x ∈ t, ¬x.name = o.name) ∧
        ((t.map (fun p => p.name)).Nodup) := by simpa using hnd
    simp only [List.foldl_cons]
    by_cases hk : o.name ∈ m.map Prod.fst
    · have hc : ((m.map Prod.fst).contains o.name) = true :=
        List.contains_iff_exists_mem_beq.mpr ⟨o.name, hk, by simp⟩
      rw [jsMapSet_replace hk, ih _ hnd'.2]
      rw [keys_replace]
      congr 1
      · rw [List.map_map]
        apply List.map_congr_left
        intro e he
        simp only [Function.comp]
        by_cases h1 : e.1 = o.name
        · have hif : (if e.1 = o.name then ((e.1 : String), o) else e) =
              (e.1, o) := if_pos h1
          simp only [hif]
          have hfind : t.find? (fun o2 => o2.name = e.1) = none := by
            rw [List.find?_eq_none]
            intro x hx
            simp only [decide_eq_true_eq]
            intro hcontra
            exact hnd'.1 x hx (h1 ▸ hcontra)
          rw [List.find?_cons_of_pos _ (by simpa using h1.symm)]
          simp only [hfind]
        · have hif : (if e.1 = o.name then ((e.1 : String), o) else e) = e :=
            if_neg h1
          simp only [hif]
          rw [List.find?_cons_of_neg _ (by simpa using fun he2 => h1 he2.symm)]
      · rw [List.filter_cons, if_neg (by rw [hc]; simp)]
    · have hc : ((m.map Prod.fst).contains o.name) = false := by
        rw [Bool.eq_false_iff]
        intro hc
        rcases List.contains_iff_exists_mem_beq.mp hc with ⟨a, ha, hbeq⟩
        exact hk ((by simpa using hbeq : o.name = a) ▸ ha)
      rw [jsMapSet_append hk, ih _ hnd'.2]
      rw [List.map_append, List.map_append]
      have hsingle : ([(o.name, o)].map (fun e =>
          match t.find? (fun o2 => o2.name = e.1) with
          | some o2 => (e.1, o2)
          | none => e)) = [(o.name, o)] := by
        have hfind : t.find? (fun o2 => o2.name = o.name) = none := by
          rw [List.find?_eq_none]
          intro x hx
          simp only [decide_eq_true_eq]
          exact hnd'.1 x hx
        simp [hfind]
      rw [hsingle]
      have hmapeq : m.map (fun e =>
          match t.find? (fun o2 => o2.name = e.1) with
          | some o2 => (e.1, o2)
          | none => e) = m.map (fun e =>
          match (o :: t).find? (fun o2 => o2.name = e.1) with
          | some o2 => (e.1, o2)
          | none => e) := by
        apply List.map_congr_left
        intro e he
        have hne : o.name ≠ e.1 := by
          intro hcontra
          exact hk (hcontra ▸ List.mem_map_of_mem Prod.fst he)
        rw [List.find?_cons_of_neg _ (by simpa using hne)]
      rw [hmapeq]
      have hfiltereq : t.filter (fun o2 =>
          !(((m.map Prod.fst) ++ [(o.name, o)].map Prod.fst).contains
            o2.name)) = t.filter (fun o2 =>
          !((m.map Prod.fst).contains o2.name)) := by
        apply List.filter_congr
        intro o2 ho2
        have hne : o2.name ≠ o.name := hnd'.1 o2 ho2
        congr 1
        rw [List.contains_eq_any_beq, List.contains_eq_any_beq,
          List.any_append]
        simp [hne]
      rw [hfiltereq]
      rw [List.filter_cons, if_pos (by rw [hc]; simp)]
      simp

/-- C4: the Omit heritage resolution equals its specification — base
fields minus the omitted keys, own-declared fields overriding same-named
survivors in place and appending otherwise — whenever the base and the
narrowing declaration each have duplicate-free field names. -/
theorem c4_omit_own_override :
    ∀ (baseProps ownProps : List PropInfo) (keyList : List String),
      ((baseProps.map (fun p => p.name)).Nodup) →
      ((ownProps.map (fun p => p.name)).Nodup) →
      omitResolve baseProps ownProps keyList =
        omitResolveSpec baseProps ownProps keyList := by
  intro B O K hB hO
  unfold omitResolve omitResolveSpec
  simp only
  have hAnodup : (((B.filter (fun p => !K.contains p.name)).map
      (fun p => p.name)).Nodup) :=
    ((List.filter_sublist B).map (fun p => p.name)).nodup hB
  rw [foldl_jsMapSet_fresh _ [] hAnodup (by simp)]
  rw [List.nil_append]
  rw [foldl_jsMapSet_own O _ hO]
  rw [List.map_append]
  congr 1
  · rw [List.map_map, List.map_map]
    apply List.map_congr_left
    intro p hp
    simp only [Function.comp]
    cases hf : O.find? (fun o => o.name = p.name) with
    | none => simp [hf]
    | some o2 => simp [hf]
  · rw [List.map_map]
    have hid : ((O.filter (fun o =>
        !((((B.filter (fun p => !K.contains p.name)).map
          (fun p => (p.name, p))).map Prod.fst).contains o.name))).map
        (Prod.snd ∘ fun o => (o.name, o))) = O.filter (fun o =>
        !((((B.filter (fun p => !K.contains p.name)).map
          (fun p => (p.name, p))).map Prod.fst).contains o.name)) := by
      rw [show (Prod.snd ∘ fun o : PropInfo => (o.name, o)) = id from rfl]
      exact List.map_id _
    rw [hid]
    apply List.filter_congr
    intro o ho
    congr 1
    rw [List.map_map]
    rw [show ((Prod.fst ∘ fun p : PropInfo => (p.name, p))) =
      (fun p : PropInfo => p.name) from rfl]
    exact contains_name_eq_any _ o.name

/-- Witness for C4: base `a, b, c`, omit key `b`, own fields `c`
(overridden type) and `d`; the result is `a, c(overridden), d` with the
override kept in the base position. -/
theorem c4_witness :
    ((([⟨"a", "A", false⟩, ⟨"b", "B", false⟩,
        ⟨"c", "C", false⟩] : List PropInfo).map (fun p => p.name)).Nodup ∧
      (([⟨"c", "C2", true⟩,
        ⟨"d", "D", false⟩] : List PropInfo).map (fun p => p.name)).Nodup) ∧
    omitResolve [⟨"a", "A", false⟩, ⟨"b", "B", false⟩, ⟨"c", "C", false⟩]
        [⟨"c", "C2", true⟩, ⟨"d", "D", false⟩] ["b"] =
      [⟨"a", "A", false⟩, ⟨"c", "C2", true⟩, ⟨"d", "D", false⟩] ∧
    omitResolveSpec [⟨"a", "A", false⟩, ⟨"b", "B", false⟩, ⟨"c", "C", false⟩]
        [⟨"c", "C2", true⟩, ⟨"d", "D", false⟩] ["b"] =
      [⟨"a", "A", false⟩, ⟨"c", "C2", true⟩, ⟨"d", "D", false⟩] :=
  ⟨⟨by decide, by decide⟩, by decide,
   (c4_omit_own_override
      [⟨"a", "A", false⟩, ⟨"b", "B", false⟩, ⟨"c", "C", false⟩]
      [⟨"c", "C2", true⟩, ⟨"d", "D", false⟩] ["b"]
      (by decide) (by decide)).symm.trans (by decide)⟩

theorem firstExisting_eq_find? (fs : List (String × SourceFileM)) :
    ∀ l : List String,
      firstExisting fs l = l.find? (fun c => fileExistsM fs c) := by
  intro l
  induction l with
  | nil => rfl
  | cons c rest ih =>
    cases h : fileExistsM fs c <;>
      simp [firstExisting, List.find?_cons, h, ih]

theorem importStep_none (fs : List (String × SourceFileM))
    (fromFsPath simple : String) :
    ∀ l : List String, (l.all (importTierMiss fs fromFsPath simple)) = true →
      importStep fs fromFsPath simple l = none := by
  intro l
  induction l with
  | nil => intro _; rfl
  | cons spec rest ih =>
    intro hall
    rw [List.all_cons] at hall
    rcases Bool.and_eq_true_iff.mp hall with ⟨h1, h2⟩
    by_cases hd : startsWithDot spec = true
    · cases hr : resolveModuleToFsPath fs fromFsPath spec with
      | none =>
        simp only [importStep, hd, if_true, hr]
        exact ih h2
      | some p =>
        cases hl : lookupFile fs p with
        | none =>
          simp only [importStep, hd, if_true, hr, hl]
          exact ih h2
        | some sf2 =>
          have hmiss : (lookupDecl sf2 simple).isNone = true := by
            unfold importTierMiss at h1
            rw [if_pos hd] at h1
            simp only [hr, hl] at h1
            exact h1
          cases hld : lookupDecl sf2 simple with
          | some k => rw [hld] at hmiss; exact absurd hmiss (by simp)
          | none =>
            simp only [importStep, hd, if_true, hr, hl, hld]
            exact ih h2
    · simp only [importStep, hd, if_false]
      exact ih h2

theorem sameDirStep_none (fs : List (String × SourceFileM))
    (dir simple : String) :
    ∀ l : List String, (l.all (sameDirTierMiss fs dir simple)) = true →
      sameDirStep fs dir simple l = none := by
  intro l
  induction l with
  | nil => intro _; rfl
  | cons e rest ih =>
    intro hall
    rw [List.all_cons] at hall
    rcases Bool.and_eq_true_iff.mp hall with ⟨h1, h2⟩
    cases hl : lookupFile fs (joinPath dir (simple ++ e)) with
    | none =>
      simp only [sameDirStep, hl]
      exact ih h2
    | some sf2 =>
      have hmiss : (lookupDecl sf2 simple).isNone = true := by
        unfold sameDirTierMiss at h1
        simp only [hl] at h1
        exact h1
      cases hld : lookupDecl sf2 simple with
      | some k => rw [hld] at hmiss; exact absurd hmiss (by simp)
      | none =>
        simp only [sameDirStep, hl, hld]
        exact ih h2

/-- C5: the nearby resolver honours the fixed three-tier priority: a
declaration in the current file (looked up by the last dotted segment of
the name) always wins regardless of imports and file system; a relative
specifier resolves to the first existing of `<spec>.ts`, `<spec>.tsx`,
`<spec>.d.ts`, `<spec>/index.ts`, `<spec>/index.tsx` in that order; and
when every tier misses the resolver returns `none` with no wider
scan. -/
theorem c5_nearby_resolver :
    (∀ (fs : List (String × SourceFileM)) (name fromFsPath : String)
        (sf : SourceFileM) (k : DKind),
      lookupDecl sf ((jsSplit '.' name).getLastD name) = some k →
      findDeclNearby fs name fromFsPath sf = some (FoundLoc.current k)) ∧
    (∀ (fs : List (String × SourceFileM)) (fromFsPath spec : String),
      resolveModuleToFsPath fs fromFsPath spec =
        (candidatePaths (dirname fromFsPath) spec).find?
          (fun c => fileExistsM fs c)) ∧
    (∀ (fs : List (String × SourceFileM)) (name fromFsPath : String)
        (sf : SourceFileM),
      lookupDecl sf ((jsSplit '.' name).getLastD name) = none →
      (sf.imports.all (fun spec =>
        importTierMiss fs fromFsPath ((jsSplit '.' name).getLastD name)
          spec)) = true →
      (([".ts", ".tsx", ".d.ts"] : List String).all (fun e =>
        sameDirTierMiss fs (dirname fromFsPath)
          ((jsSplit '.' name).getLastD name) e)) = true →
      findDeclNearby fs name fromFsPath sf = none) := by
  refine ⟨?_, ?_, ?_⟩
  · intro fs name fromFsPath sf k h
    simp only [findDeclNearby, h]
  · intro fs fromFsPath spec
    exact firstExisting_eq_find? fs _
  · intro fs name fromFsPath sf h1 h2 h3
    simp only [findDeclNearby, h1]
    rw [importStep_none fs fromFsPath _ sf.imports h2]
    exact sameDirStep_none fs (dirname fromFsPath) _ _ h3

/-- Witness for C5: a name declared both in the current file and in the
imported `./bar` resolves to the current file; a resolver run whose
three tiers all miss returns `none`; and the candidate-order equation at
a concrete file system. -/
theorem c5_witness :
    (lookupDecl ⟨["./bar"], ["Foo"], []⟩ ((jsSplit '.' "Foo").getLastD "Foo") =
        some DKind.ifaceK ∧
      findDeclNearby [("/d/bar.ts", ⟨[], ["Foo"], []⟩)] "Foo" "/d/cur.ts"
          ⟨["./bar"], ["Foo"], []⟩ = some (FoundLoc.current DKind.ifaceK)) ∧
    resolveModuleToFsPath [("/d/bar.ts", ⟨[], ["Foo"], []⟩)] "/d/cur.ts"
        "./bar" = some "/d/bar.ts" ∧
    findDeclNearby [("/d/bar.ts", ⟨[], ["Foo"], []⟩)] "Nope" "/d/cur.ts"
        ⟨["./bar"], ["Foo"], []⟩ = none :=
  ⟨⟨by decide,
    c5_nearby_resolver.1 [("/d/bar.ts", ⟨[], ["Foo"], []⟩)] "Foo" "/d/cur.ts"
      ⟨["./bar"], ["Foo"], []⟩ DKind.ifaceK (by decide)⟩,
   by decide,
   c5_nearby_resolver.2.2 [("/d/bar.ts", ⟨[], ["Foo"], []⟩)] "Nope"
     "/d/cur.ts" ⟨["./bar"], ["Foo"], []⟩ (by decide) (by decide) (by decide)⟩

theorem generateViews_append (iname : String) (iface : List TProp)
    (mode : ValidationMode) (iSuffix : String) :
    ∀ s1 s2 : List (String × List String),
      generateViews iname iface (s1 ++ s2) mode iSuffix =
        ⟨(generateViews iname iface s1 mode iSuffix).out ++
           (generateViews iname iface s2 mode iSuffix).out,
         (generateViews iname iface s1 mode iSuffix).warnings ++
           (generateViews iname iface s2 mode iSuffix).warnings,
         (generateViews iname iface s1 mode iSuffix).generated +
           (generateViews iname iface s2 mode iSuffix).generated⟩ := by
  intro s1
  induction s1 with
  | nil =>
    intro s2
    cases h : generateViews iname iface s2 mode iSuffix with
    | mk o w g => simp [generateViews, h]
  | cons hd tl ih =>
    intro s2
    rcases hd with ⟨v, fs⟩
    show generateViews iname iface ((v, fs) :: (tl ++ s2)) mode iSuffix = _
    simp only [generateViews]
    rw [ih s2]
    simp [List.append_assoc, Nat.add_assoc]

theorem processView_strict_skip (iface : List TProp)
    (nm iSuffix v : String) (fields : List String)
    (h1 : fields ≠ [])
    (h2 : computeInvalid iface ValidationMode.strict (splitFields fields) ≠
      []) :
    processView iface ValidationMode.strict nm iSuffix v fields =
      (none, ["Skipped '" ++ v ++ "': invalid fields: " ++
        String.intercalate ", "
          (computeInvalid iface ValidationMode.strict
            (splitFields fields))]) := by
  unfold processView
  rw [if_neg (by simpa [List.isEmpty_iff] using h1)]
  simp only
  rw [if_pos (by simpa [List.isEmpty_iff] using h2)]

/-- C6: in strict mode a view whose selection has at least one violation
is skipped entirely — it contributes no interface and exactly one
warning naming all of its violations, and the views before and after it
in the same batch contribute exactly what they contribute on their own —
while a view with no violations is emitted from its unfiltered selection
with no warning. -/
theorem c6_strict_skip :
    (∀ (iname : String) (iface : List TProp) (iSuffix : String)
        (pre post : List (String × List String)) (v : String)
        (fields : List String),
      fields ≠ [] →
      computeInvalid iface ValidationMode.strict (splitFields fields) ≠ [] →
      generateViews iname iface (pre ++ (v, fields) :: post)
          ValidationMode.strict iSuffix =
        ⟨(generateViews iname iface pre ValidationMode.strict iSuffix).out ++
           (generateViews iname iface post ValidationMode.strict iSuffix).out,
         (generateViews iname iface pre ValidationMode.strict
             iSuffix).warnings ++
           ("Skipped '" ++ v ++ "': invalid fields: " ++
             String.intercalate ", "
               (computeInvalid iface ValidationMode.strict
                 (splitFields fields))) ::
           (generateViews iname iface post ValidationMode.strict
             iSuffix).warnings,
         (generateViews iname iface pre ValidationMode.strict
             iSuffix).generated +
           (generateViews iname iface post ValidationMode.strict
             iSuffix).generated⟩) ∧
    (∀ (iname : String) (iface : List TProp) (iSuffix w : String)
        (gfields : List String),
      gfields ≠ [] →
      computeInvalid iface ValidationMode.strict (splitFields gfields) = [] →
      processView iface ValidationMode.strict (stripUnderscore iname)
          iSuffix w gfields =
        (emitView iface (splitFields gfields)
          (viewTypeName (stripUnderscore iname) w iSuffix), [])) := by
  constructor
  · intro iname iface iSuffix pre post v fields h1 h2
    have hmid : (v, fields) :: post = [(v, fields)] ++ post := rfl
    rw [hmid, generateViews_append, generateViews_append]
    have hone : generateViews iname iface [(v, fields)] ValidationMode.strict
        iSuffix = ⟨[], ["Skipped '" ++ v ++ "': invalid fields: " ++
          String.intercalate ", "
            (computeInvalid iface ValidationMode.strict
              (splitFields fields))], 0⟩ := by
      simp [generateViews,
        processView_strict_skip iface (stripUnderscore iname) iSuffix v fields
          h1 h2]
    rw [hone]
    simp
  · intro iname iface iSuffix w gfields h1 h2
    unfold processView
    rw [if_neg (by simpa [List.isEmpty_iff] using h1)]
    simp only
    rw [if_neg (by simp [h2])]

/-- Witness for C6 on `_Post`: the view `feed` with the invalid token
`bogus` is skipped with one warning while its sibling `home` is still
generated. -/
theorem c6_witness :
    (["id", "bogus"] : List String) ≠ [] ∧
    computeInvalid postIface ValidationMode.strict
      (splitFields ["id", "bogus"]) ≠ [] ∧
    generateViews "_Post" postIface
        [("feed", ["id", "bogus"]), ("home", ["id"])]
        ValidationMode.strict "" =
      ⟨["export interface PostHome \x7b\n id: string;\n\x7d"],
       ["Skipped 'feed': invalid fields: bogus"], 1⟩ ∧
    processView postIface ValidationMode.strict (stripUnderscore "_Post") ""
        "home" ["id"] =
      (some "export interface PostHome \x7b\n id: string;\n\x7d", []) :=
  ⟨by decide, by decide,
   ((c6_strict_skip.1 "_Post" postIface "" [] [("home", ["id"])] "feed"
      ["id", "bogus"] (by decide) (by decide)).trans (by decide)),
   ((c6_strict_skip.2 "_Post" postIface "" "home" ["id"] (by decide)
      (by decide)).trans (by decide))⟩

/-- C7: in partial mode the invalid parts of a selection are dropped
(`filterSplit`); a view with nothing surviving is skipped with a
`no valid fields` warning; otherwise the view is emitted from the
filtered selection together with one warning listing every ignored
invalid name; and each view's contribution to the batch is independent
of its siblings, so generation continues for the remaining views. -/
theorem c7_partial_drop :
    (∀ (iface : List TProp) (nm iSuffix v : String) (fields : List String),
      fields ≠ [] →
      (filterSplit iface (splitFields fields)).top = [] →
      (filterSplit iface (splitFields fields)).nested = [] →
      (filterSplit iface (splitFields fields)).exclusions = [] →
      processView iface ValidationMode.partialMode nm iSuffix v fields =
        (none, ["Skipped '" ++ v ++ "': no valid fields."])) ∧
    (∀ (iface : List TProp) (nm iSuffix v : String) (fields : List String),
      fields ≠ [] →
      ¬((filterSplit iface (splitFields fields)).top = [] ∧
        (filterSplit iface (splitFields fields)).nested = [] ∧
        (filterSplit iface (splitFields fields)).exclusions = []) →
      computeInvalid iface ValidationMode.partialMode (splitFields fields) ≠
        [] →
      processView iface ValidationMode.partialMode nm iSuffix v fields =
        (emitView iface (filterSplit iface (splitFields fields))
          (viewTypeName nm v iSuffix),
         ["Partially generated '" ++ v ++ "': ignored invalid fields: " ++
           String.intercalate ", "
             (computeInvalid iface ValidationMode.partialMode
               (splitFields fields))])) ∧
    (∀ (iname : String) (iface : List TProp) (iSuffix : String)
        (pre post : List (String × List String)) (v : String)
        (fields : List String),
      generateViews iname iface (pre ++ (v, fields) :: post)
          ValidationMode.partialMode iSuffix =
        ⟨(generateViews iname iface pre ValidationMode.partialMode
            iSuffix).out ++
           (processView iface ValidationMode.partialMode
             (stripUnderscore iname) iSuffix v fields).1.toList ++
           (generateViews iname iface post ValidationMode.partialMode
             iSuffix).out,
         (generateViews iname iface pre ValidationMode.partialMode
             iSuffix).warnings ++
           (processView iface ValidationMode.partialMode
             (stripUnderscore iname) iSuffix v fields).2 ++
           (generateViews iname iface post ValidationMode.partialMode
             iSuffix).warnings,
         (generateViews iname iface pre ValidationMode.partialMode
             iSuffix).generated +
           ((if (processView iface ValidationMode.partialMode
               (stripUnderscore iname) iSuffix v fields).1.isSome then 1
             else 0) +
            (generateViews iname iface post ValidationMode.partialMode
              iSuffix).generated)⟩) := by
  refine ⟨?_, ?_, ?_⟩
  · intro iface nm iSuffix v fields h1 ht hn hx
    unfold processView
    rw [if_neg (by simpa [List.isEmpty_iff] using h1)]
    simp only
    rw [if_pos (by simp [ht, hn, hx])]
  · intro iface nm iSuffix v fields h1 hsurv hinv
    unfold processView
    rw [if_neg (by simpa [List.isEmpty_iff] using h1)]
    simp only
    rw [if_neg ?_, if_pos (by simpa [List.isEmpty_iff] using hinv)]
    intro hc
    rcases Bool.and_eq_true_iff.mp hc with ⟨hc1, hc3⟩
    rcases Bool.and_eq_true_iff.mp hc1 with ⟨hc1a, hc2⟩
    exact hsurv ⟨List.isEmpty_iff.mp hc1a, List.isEmpty_iff.mp hc2,
      List.isEmpty_iff.mp hc3⟩
  · intro iname iface iSuffix pre post v fields
    have hmid : (v, fields) :: post = [(v, fields)] ++ post := rfl
    rw [hmid, generateViews_append, generateViews_append]
    simp [generateViews, List.append_assoc]

/-- Witness for C7 on `_Post`: a view with only invalid tokens is
dropped with the `no valid fields` warning; a view mixing `id` with the
invalid `bogus` is emitted partially with one warning; the batch of the
two processes both. -/
theorem c7_witness :
    processView postIface ValidationMode.partialMode "Post" "" "feed"
        ["bogus"] = (none, ["Skipped 'feed': no valid fields."]) ∧
    processView postIface ValidationMode.partialMode "Post" "" "home"
        ["id", "bogus"] =
      (some "export interface PostHome \x7b\n id: string;\n\x7d",
       ["Partially generated 'home': ignored invalid fields: bogus"]) ∧
    generateViews "_Post" postIface
        [("feed", ["bogus"]), ("home", ["id", "bogus"])]
        ValidationMode.partialMode "" =
      ⟨["export interface PostHome \x7b\n id: string;\n\x7d"],
       ["Skipped 'feed': no valid fields.",
        "Partially generated 'home': ignored invalid fields: bogus"], 1⟩ :=
  ⟨(c7_partial_drop.1 postIface "Post" "" "feed" ["bogus"] (by decide)
      (by decide) (by decide) (by decide)).trans (by decide),
   (c7_partial_drop.2.1 postIface "Post" "" "home" ["id", "bogus"]
      (by decide) (by decide) (by decide)).trans (by decide),
   (c7_partial_drop.2.2 "_Post" postIface "" [] [("home", ["id", "bogus"])]
      "feed" ["bogus"]).trans (by decide)⟩

theorem emitView_shape {iface : List TProp} {s : Split} {ty t : String}
    (h : emitView iface s ty = some t) :
    ∃ body, t = "export interface " ++ ty ++ " \x7b\n" ++ body ++
      "\n\x7d" := by
  simp only [emitView] at h
  split at h
  · exact absurd h (by simp)
  · exact ⟨String.intercalate "\n"
      (emitTopLines iface s ++ emitNestedLines iface s),
      (Option.some.injEq _ _ ▸ h).symm⟩

theorem processView_shape {iface : List TProp} {mode : ValidationMode}
    {nm iSuffix v t : String} {fields : List String} {w : List String}
    (h : processView iface mode nm iSuffix v fields = (some t, w)) :
    ∃ body, t = "export interface " ++ viewTypeName nm v iSuffix ++
      " \x7b\n" ++ body ++ "\n\x7d" := by
  unfold processView at h
  split at h
  · simp at h
  · cases mode with
    | strict =>
      simp only at h
      split at h
      · simp at h
      · have := (Prod.mk.injEq _ _ _ _ ▸ h).1
        exact emitView_shape this
    | partialMode =>
      simp only at h
      split at h
      · simp at h
      · have := (Prod.mk.injEq _ _ _ _ ▸ h).1
        exact emitView_shape this
    | loose =>
      simp only at h
      have := (Prod.mk.injEq _ _ _ _ ▸ h).1
      exact emitView_shape this

/-- C10: every interface emitted by the view-generation loop is named by
stripping one leading underscore from the target interface name,
omitting that prefix when it equals the title-cased view key, and
appending the title-cased view key and the configured suffix; in
particular `_Post` with view `feed` yields `PostFeed` and `_Feed` with
view `feed` yields `Feed`. -/
theorem c10_view_type_name :
    (∀ (iname : String) (iface : List TProp)
        (schemas : List (String × List String)) (mode : ValidationMode)
        (iSuffix t : String),
      t ∈ (generateViews iname iface schemas mode iSuffix).out →
      ∃ v fields body, (v, fields) ∈ schemas ∧
        t = "export interface " ++
          viewTypeName (stripUnderscore iname) v iSuffix ++ " \x7b\n" ++
          body ++ "\n\x7d") ∧
    viewTypeName (stripUnderscore "_Post") "feed" "" = "PostFeed" ∧
    viewTypeName (stripUnderscore "_Feed") "feed" "" = "Feed" := by
  refine ⟨?_, by decide, by decide⟩
  intro iname iface schemas mode iSuffix t
  induction schemas with
  | nil => intro ht; simp [generateViews] at ht
  | cons hd tl ih =>
    rcases hd with ⟨v, fs⟩
    intro ht
    simp only [generateViews] at ht
    rcases List.mem_append.mp ht with hin | hin
    · cases hp : (processView iface mode (stripUnderscore iname) iSuffix v
        fs).1 with
      | none => rw [hp] at hin; simp at hin
      | some t2 =>
        rw [hp] at hin
        simp only [Option.toList_some, List.mem_singleton] at hin
        subst hin
        have hpair : processView iface mode (stripUnderscore iname) iSuffix v
            fs = (some t,
              (processView iface mode (stripUnderscore iname) iSuffix v
                fs).2) := by
          rw [← hp]
        obtain ⟨body, hb⟩ := processView_shape hpair
        exact ⟨v, fs, body, List.mem_cons_self _ _, hb⟩
    · obtain ⟨v2, fields2, body, hmem, hb⟩ := ih hin
      exact ⟨v2, fields2, body, List.mem_cons_of_mem _ hmem, hb⟩

/-- Witness for C10: the view `feed` over `_Post` emits an interface
named `PostFeed`. -/
theorem c10_witness :
    "export interface PostFeed \x7b\n id: string;\n\x7d" ∈
      (generateViews "_Post" postIface [("feed", ["id"])]
        ValidationMode.partialMode "").out ∧
    (∃ v fields body, (v, fields) ∈ [("feed", ["id"])] ∧
      "export interface PostFeed \x7b\n id: string;\n\x7d" =
        "export interface " ++
          viewTypeName (stripUnderscore "_Post") v "" ++ " \x7b\n" ++
          body ++ "\n\x7d") :=
  ⟨by decide,
   c10_view_type_name.1 "_Post" postIface [("feed", ["id"])]
     ValidationMode.partialMode ""
     "export interface PostFeed \x7b\n id: string;\n\x7d" (by decide)⟩

/-- C1 counterexample: for `_Post` (declared field order `id, user_id,
text, title, images, upvotes_count, comments_count, author`) and the
view tokens `["id","title","text","images","author.!id"]`, the emitted
interface lists `title` before `text` — the first-mention order of the
tokens — so the emitted field order is not the target declaration's own
declared order (which has `text` before `title`). -/
theorem c1_counterexample :
    (generateViews "_Post" postIface
        [("profile", ["id", "title", "text", "images", "author.!id"])]
        ValidationMode.partialMode "").out =
      ["export interface PostProfile \x7b\n id: string;\n title: string;\n text: string;\n images: string[];\n author: \x7b name: string \x7d;\n\x7d"] ∧
    (generateViews "_Post" postIface
        [("profile", ["id", "title", "text", "images", "author.!id"])]
        ValidationMode.partialMode "").out ≠
      ["export interface PostProfile \x7b\n id: string;\n text: string;\n title: string;\n images: string[];\n author: \x7b name: string \x7d;\n\x7d"] := by
  constructor
  · decide
  · decide

/-- C1 as amended: the `profile` view of `_Post` emits exactly the
fields `id`, `title`, `text`, `images` and the composite
`author: { name: string }`, in the order in which the tokens first
mention each top-level name (token order), not in the target
declaration's declared field order. -/
theorem c1_token_order_emission :
    generateViews "_Post" postIface
        [("profile", ["id", "title", "text", "images", "author.!id"])]
        ValidationMode.partialMode "" =
      ⟨["export interface PostProfile \x7b\n id: string;\n title: string;\n text: string;\n images: string[];\n author: \x7b name: string \x7d;\n\x7d"],
       [], 1⟩ := by
  decide
